import Mathlib

/-!
Shallow embedding of the eWriter core text utilities:
  * `processSpeakerSegments` (src/app/api/transcribe/route.ts),
  * `extractPharmacyEntities` (src/lib/utils.ts),
  * `createFallbackSummary`  (src/app/api/summarize/gemini/route.ts).
Strings are modelled as `List Char`; JavaScript's `toLowerCase`/`toUpperCase`
are modelled on the ASCII range (every vocabulary token and trigger keyword
is ASCII), `\s` and `String.prototype.trim` use the JS whitespace set, and
the three regular expressions of the source are implemented as deterministic
scanners that follow the JS engine's leftmost, alternation-ordered, lazy-dot
backtracking semantics.
-/

namespace EWriter

/-- Abbreviation turning a Lean string literal into the `List Char` model. -/
def str (s : String) : List Char := s.toList

/-- JS whitespace (the `\s` class and `String.prototype.trim`'s set). -/
def isWs (c : Char) : Bool :=
  c.toNat == 9 || c.toNat == 10 || c.toNat == 11 || c.toNat == 12 ||
  c.toNat == 13 || c.toNat == 32 || c.toNat == 160 || c.toNat == 0x1680 ||
  (0x2000 ≤ c.toNat && c.toNat ≤ 0x200a) || c.toNat == 0x2028 ||
  c.toNat == 0x2029 || c.toNat == 0x202f || c.toNat == 0x205f ||
  c.toNat == 0x3000 || c.toNat == 0xfeff

/-- JS line terminators (the characters `.` does not match). -/
def isLineTerm (c : Char) : Bool :=
  c.toNat == 10 || c.toNat == 13 || c.toNat == 0x2028 || c.toNat == 0x2029

/-- The `\d` class (ASCII digits). -/
def isDigitChar (c : Char) : Bool := 48 ≤ c.toNat && c.toNat ≤ 57

/-- ASCII model of JS `toLowerCase` applied to one character. -/
def lowerChar (c : Char) : Char :=
  if 65 ≤ c.toNat && c.toNat ≤ 90 then Char.ofNat (c.toNat + 32) else c

/-- ASCII model of JS `toUpperCase` applied to one character. -/
def upperChar (c : Char) : Char :=
  if 97 ≤ c.toNat && c.toNat ≤ 122 then Char.ofNat (c.toNat - 32) else c

/-- `text.toLowerCase()`. -/
def lowerOf (t : List Char) : List Char := t.map lowerChar

/-- Does `l` start with the exact character sequence `pat`? -/
def startsWithB : List Char → List Char → Bool
  | [], _ => true
  | _ :: _, [] => false
  | p :: ps, c :: cs => p == c && startsWithB ps cs

/-- Does `l` start with `pat` up to ASCII lowercasing of `l` (the pattern is
already lowercase)?  Models a case-insensitive literal at one position. -/
def startsWithCI : List Char → List Char → Bool
  | [], _ => true
  | _ :: _, [] => false
  | p :: ps, c :: cs => p == lowerChar c && startsWithCI ps cs

/-- JS `String.prototype.includes` on the `List Char` model. -/
def containsSub (needle : List Char) : List Char → Bool
  | [] => startsWithB needle []
  | c :: rest => startsWithB needle (c :: rest) || containsSub needle rest

/-- Global regex scan: at each position try `tryAt` on the suffix; on a match
emit it and resume after its end (JS `lastIndex` semantics), else advance one
character.  `k` counts characters still covered by the previous match. -/
def scanGo (tryAt : List Char → Option (List Char)) : Nat → List Char → List (List Char)
  | _, [] => []
  | k, c :: rest =>
    if k > 0 then scanGo tryAt (k - 1) rest
    else
      match tryAt (c :: rest) with
      | some m => m :: scanGo tryAt (m.length - 1) rest
      | none => scanGo tryAt 0 rest

/-- The unit alternatives of the dosage regex, in source order. -/
def dosageUnits : List (List Char) :=
  [str "mg", str "mcg", str "g", str "ml", str "tablet", str "capsule",
   str "dose", str "puff"]

/-- One attempt of `\d+\s*(mg|mcg|g|ml|tablet|capsule|dose|puff)` (with `i`)
anchored at the start of `l`: greedy digits, greedy whitespace, then the first
unit alternative that fits.  (Backtracking into shorter digit or whitespace
runs can never succeed because no alternative starts with a digit or a
whitespace character, so the greedy runs are maximal.) -/
def tryDosage (l : List Char) : Option (List Char) :=
  let digits := l.takeWhile isDigitChar
  if digits.isEmpty then none
  else
    let afterD := l.dropWhile isDigitChar
    let ws := afterD.takeWhile isWs
    let afterW := afterD.dropWhile isWs
    match dosageUnits.find? (fun u => startsWithCI u afterW) with
    | some u => some (digits ++ ws ++ afterW.take u.length)
    | none => none

/-- `text.match(/\d+\s*(mg|mcg|g|ml|tablet|capsule|dose|puff)/gi) || []`. -/
def dosScan (text : List Char) : List (List Char) := scanGo tryDosage 0 text

/-- Lazy `.*?` followed by an alternation: the least `k` such that `k`
non-line-terminator characters can be skipped and some alternative of `g2`
matches right after; returns `(k, length of the matched alternative)`. -/
def lazyDot (g2 : List (List Char)) : List Char → Option (Nat × Nat)
  | [] =>
    match g2.find? (fun a => startsWithCI a []) with
    | some a => some (0, a.length)
    | none => none
  | c :: rest =>
    match g2.find? (fun a => startsWithCI a (c :: rest)) with
    | some a => some (0, a.length)
    | none =>
      if isLineTerm c then none
      else (lazyDot g2 rest).map (fun p => (p.1 + 1, p.2))

/-- Try the alternatives of the first group in order at the start of `l`;
for the first that fits, run the lazy middle, and on its failure fall through
to the next alternative (JS backtracking order). -/
def tryLazyAux (g2 : List (List Char)) (l : List Char) : List (List Char) → Option (List Char)
  | [] => none
  | a :: as =>
    if startsWithCI a l then
      match lazyDot g2 (l.drop a.length) with
      | some p => some (l.take (a.length + p.1 + p.2))
      | none => tryLazyAux g2 l as
    else tryLazyAux g2 l as

/-- One anchored attempt of `(g1 alternation).*?(g2 alternation)`. -/
def tryLazy (g1 g2 : List (List Char)) (l : List Char) : Option (List Char) :=
  tryLazyAux g2 l g1

/-- `text.match(/(g1…).*?(g2…)/gi) || []`. -/
def lazyScan (g1 g2 : List (List Char)) (text : List Char) : List (List Char) :=
  scanGo (tryLazy g1 g2) 0 text

/-- The medication vocabulary of `extractPharmacyEntities` (src/lib/utils.ts). -/
def medsVocab : List (List Char) :=
  [str "aspirin", str "ibuprofen", str "acetaminophen", str "amoxicillin",
   str "metformin", str "lisinopril", str "atorvastatin", str "omeprazole",
   str "albuterol", str "prednisone", str "warfarin", str "insulin",
   str "morphine", str "oxycodone", str "hydrocodone"]

/-- The side-effect vocabulary of `extractPharmacyEntities`. -/
def sideEffectsVocab : List (List Char) :=
  [str "nausea", str "dizziness", str "headache", str "fatigue",
   str "diarrhea", str "constipation", str "rash", str "itching",
   str "swelling", str "shortness of breath", str "chest pain",
   str "irregular heartbeat", str "fever", str "chills", str "sore throat"]

/-- First group of the allergy regex. -/
def allergyG1 : List (List Char) := [str "allergic", str "allergy", str "reaction"]

/-- Second group of the allergy regex. -/
def allergyG2 : List (List Char) :=
  [str "penicillin", str "sulfa", str "aspirin", str "latex", str "peanut",
   str "shellfish"]

/-- First group of the drug-interaction regex. -/
def interactG1 : List (List Char) := [str "interaction", str "interact", str "conflict"]

/-- Second group of the drug-interaction regex. -/
def interactG2 : List (List Char) := [str "medication", str "drug", str "medicine"]

/-- One entity category of the extractor's result. -/
structure EntityCategory where
  name : List Char
  items : List (List Char)
deriving DecidableEq, Repr

/-- The `medications` local of `extractPharmacyEntities`. -/
def medicationsOf (t : List Char) : List (List Char) :=
  medsVocab.filter (fun med => containsSub med (lowerOf t))

/-- The `dosages` local of `extractPharmacyEntities`. -/
def dosagesOf (t : List Char) : List (List Char) := dosScan t

/-- The `sideEffects` local of `extractPharmacyEntities`. -/
def sideEffectsOf (t : List Char) : List (List Char) :=
  sideEffectsVocab.filter (fun e => containsSub e (lowerOf t))

/-- The `allergies` local of `extractPharmacyEntities`. -/
def allergiesOf (t : List Char) : List (List Char) := lazyScan allergyG1 allergyG2 t

/-- The `interactions` local of `extractPharmacyEntities`. -/
def interactionsOf (t : List Char) : List (List Char) := lazyScan interactG1 interactG2 t

/-- `extractPharmacyEntities` (src/lib/utils.ts, lines 14-47). -/
def extractPharmacyEntities (t : List Char) : List EntityCategory :=
  ([⟨str "Medications", medicationsOf t⟩,
    ⟨str "Dosages", dosagesOf t⟩,
    ⟨str "Side Effects", sideEffectsOf t⟩,
    ⟨str "Allergies", allergiesOf t⟩,
    ⟨str "Drug Interactions", interactionsOf t⟩] : List EntityCategory).filter
    (fun c => decide (0 < c.items.length))

/-- A segment of the Speaker Segmenter's output. -/
structure SpeakerSegment where
  speaker : String
  text : List Char
  timestamp : Nat
deriving DecidableEq, Repr

/-- The sentence-terminator class `[.!?]` of `processSpeakerSegments`. -/
def isDelim (c : Char) : Bool := c == '.' || c == '!' || c == '?'

/-- Worker of `splitDelims`, accumulating the current fragment reversed.
It splits at every single terminator; the source splits at maximal runs
(`/[.!?]+/`), which differs only by extra empty fragments between adjacent
terminators, and those are removed by the non-blank filter that immediately
follows in the source. -/
def splitAux : List Char → List Char → List (List Char)
  | [], acc => [acc.reverse]
  | c :: cs, acc =>
    if isDelim c then acc.reverse :: splitAux cs [] else splitAux cs (c :: acc)

/-- `text.split(/[.!?]+/)` up to empty fragments (see `splitAux`). -/
def splitDelims (l : List Char) : List (List Char) := splitAux l []

/-- JS `String.prototype.trim`. -/
def trim (l : List Char) : List Char :=
  ((l.dropWhile isWs).reverse.dropWhile isWs).reverse

/-- The filtered sentence list of `processSpeakerSegments`:
`text.split(/[.!?]+/).filter(s => s.trim().length > 0)`. -/
def sentencesOf (t : List Char) : List (List Char) :=
  (splitDelims t).filter (fun s => decide (0 < (trim s).length))

/-- The `isQuestion` test of `processSpeakerSegments`. -/
def isQuestionB (sentence : List Char) : Bool :=
  containsSub (str "?") sentence ||
  containsSub (str "what") (lowerOf sentence) ||
  containsSub (str "how") (lowerOf sentence) ||
  containsSub (str "when") (lowerOf sentence) ||
  containsSub (str "why") (lowerOf sentence) ||
  containsSub (str "can you") (lowerOf sentence) ||
  containsSub (str "could you") (lowerOf sentence)

/-- The `hasMedicalTerms` test of `processSpeakerSegments`. -/
def hasMedicalTermsB (sentence : List Char) : Bool :=
  containsSub (str "dosage") (lowerOf sentence) ||
  containsSub (str "side effect") (lowerOf sentence) ||
  containsSub (str "medication") (lowerOf sentence) ||
  containsSub (str "prescription") (lowerOf sentence) ||
  containsSub (str "pharmacy") (lowerOf sentence)

/-- The `for` loop of `processSpeakerSegments`: `n` is the total sentence
count, `i` the current index, `spk` the current speaker, `acc` the text
accumulator and `ts` the timestamp counter. -/
def segLoop (n : Nat) : List (List Char) → Nat → String → List Char → Nat → List SpeakerSegment
  | [], _, _, _, _ => []
  | s :: rest, i, spk, acc, ts =>
    let sentence := trim s
    let isQ := isQuestionB sentence
    let hasMed := hasMedicalTermsB sentence
    let spk2 := if isQ && !hasMed then "Patient" else if hasMed then "Pharmacist" else spk
    let acc2 := acc ++ sentence ++ str ". "
    let ts2 := ts + 30
    if i % 2 == 1 || i == n - 1 then
      ⟨spk2, trim acc2, ts2 - 30⟩ :: segLoop n rest (i + 1) spk2 [] ts2
    else
      segLoop n rest (i + 1) spk2 acc2 ts2

/-- `processSpeakerSegments` (src/app/api/transcribe/route.ts, lines 94-143;
the `words` parameter is unused by the source and omitted). -/
def processSpeakerSegments (t : List Char) : List SpeakerSegment :=
  segLoop (sentencesOf t).length (sentencesOf t) 0 "Pharmacist" [] 0

/-- Specification-side shape of the segment texts' concatenation: the
trimmed sentences in order, each followed by a period, with the two
sentences of one window separated by `". "` and nothing between windows.
Used to state C10. -/
def chunkJoin : List (List Char) → List Char
  | [] => []
  | [s] => s ++ str "."
  | a :: b :: rest => a ++ str ". " ++ b ++ str "." ++ chunkJoin rest

/-- One medication entry of the fallback summary. -/
structure MedicationEntry where
  name : List Char
  dosage : List Char
  frequency : List Char
  notes : List Char
deriving DecidableEq, Repr

/-- The structured summary shape produced by `createFallbackSummary`. -/
structure StructuredSummary where
  keyTopics : List (List Char)
  medications : List MedicationEntry
  actionItems : List (List Char)
  patientConcerns : List (List Char)
  pharmacistRecommendations : List (List Char)
deriving DecidableEq, Repr

/-- `med.charAt(0).toUpperCase() + med.slice(1)`. -/
def capFirst : List Char → List Char
  | [] => []
  | c :: rest => upperChar c :: rest

/-- The medication vocabulary of `createFallbackSummary`
(src/app/api/summarize/gemini/route.ts): only the first ten names of
`medsVocab`. -/
def fallbackMedsVocab : List (List Char) :=
  [str "aspirin", str "ibuprofen", str "acetaminophen", str "amoxicillin",
   str "metformin", str "lisinopril", str "atorvastatin", str "omeprazole",
   str "albuterol", str "prednisone"]

/-- The `medications` local of `createFallbackSummary`. -/
def fallbackMedicationsOf (t : List Char) : List MedicationEntry :=
  (fallbackMedsVocab.filter (fun med => containsSub med (lowerOf t))).map
    (fun med => ⟨capFirst med, [], [], []⟩)

/-- The `topics` local of `createFallbackSummary`. -/
def topicsOf (t : List Char) : List (List Char) :=
  (if containsSub (str "medication") (lowerOf t) then [str "Medication discussion"] else []) ++
  (if containsSub (str "side effect") (lowerOf t) then [str "Side effects"] else []) ++
  (if containsSub (str "allergy") (lowerOf t) then [str "Allergies"] else []) ++
  (if containsSub (str "dosage") (lowerOf t) then [str "Dosage instructions"] else []) ++
  (if containsSub (str "refill") (lowerOf t) then [str "Refill request"] else [])

/-- The `actions` local of `createFallbackSummary`. -/
def actionsOf (t : List Char) : List (List Char) :=
  (if containsSub (str "follow up") (lowerOf t) then [str "Schedule follow-up appointment"] else []) ++
  (if containsSub (str "refill") (lowerOf t) then [str "Process medication refill"] else []) ++
  (if containsSub (str "call") (lowerOf t) then [str "Call patient with updates"] else [])

/-- The `concerns` local of `createFallbackSummary`. -/
def concernsOf (t : List Char) : List (List Char) :=
  (if containsSub (str "pain") (lowerOf t) then [str "Pain management"] else []) ++
  (if containsSub (str "side effect") (lowerOf t) then [str "Medication side effects"] else []) ++
  (if containsSub (str "allergy") (lowerOf t) then [str "Allergic reactions"] else [])

/-- The `recommendations` local of `createFallbackSummary`. -/
def recommendationsOf (t : List Char) : List (List Char) :=
  (if containsSub (str "take with food") (lowerOf t) then [str "Take medication with food"] else []) ++
  (if containsSub (str "avoid alcohol") (lowerOf t) then [str "Avoid alcohol while taking medication"] else []) ++
  (if containsSub (str "monitor") (lowerOf t) then [str "Monitor for side effects"] else [])

/-- The placeholder entry of the `medications` field. -/
def noMedsEntry : MedicationEntry :=
  ⟨str "No specific medications mentioned", [], [], []⟩

/-- `createFallbackSummary` (src/app/api/summarize/gemini/route.ts,
lines 146-193). -/
def createFallbackSummary (t : List Char) : StructuredSummary :=
  { keyTopics := if 0 < (topicsOf t).length then topicsOf t else [str "General consultation"]
    medications := if 0 < (fallbackMedicationsOf t).length then fallbackMedicationsOf t else [noMedsEntry]
    actionItems := if 0 < (actionsOf t).length then actionsOf t else [str "Review consultation notes"]
    patientConcerns := if 0 < (concernsOf t).length then concernsOf t else [str "General health discussion"]
    pharmacistRecommendations := if 0 < (recommendationsOf t).length then recommendationsOf t else [str "Follow prescribed regimen"] }

/-! ### Unfolding equations for the fallback summary's fields -/

theorem fallback_keyTopics_eq (t : List Char) :
    (createFallbackSummary t).keyTopics =
      if 0 < (topicsOf t).length then topicsOf t else [str "General consultation"] := rfl

theorem fallback_medications_eq (t : List Char) :
    (createFallbackSummary t).medications =
      if 0 < (fallbackMedicationsOf t).length then fallbackMedicationsOf t
      else [noMedsEntry] := rfl

theorem fallback_actionItems_eq (t : List Char) :
    (createFallbackSummary t).actionItems =
      if 0 < (actionsOf t).length then actionsOf t
      else [str "Review consultation notes"] := rfl

theorem fallback_patientConcerns_eq (t : List Char) :
    (createFallbackSummary t).patientConcerns =
      if 0 < (concernsOf t).length then concernsOf t
      else [str "General health discussion"] := rfl

theorem fallback_recommendations_eq (t : List Char) :
    (createFallbackSummary t).pharmacistRecommendations =
      if 0 < (recommendationsOf t).length then recommendationsOf t
      else [str "Follow prescribed regimen"] := rfl

/-! ### Facts about the concrete vocabularies -/

theorem medsVocab_nodup : medsVocab.Nodup := by decide

theorem fallbackMedsVocab_nodup : fallbackMedsVocab.Nodup := by decide

theorem capFirst_injOn_vocab :
    ∀ a ∈ fallbackMedsVocab, ∀ b ∈ fallbackMedsVocab, capFirst a = capFirst b → a = b := by
  decide

theorem capFirst_vocab_ne_noMeds :
    ∀ a ∈ fallbackMedsVocab, capFirst a ≠ str "No specific medications mentioned" := by
  decide

theorem medsVocab_lowercase : ∀ m ∈ medsVocab, lowerOf m = m := by decide

/-- When none of the fallback vocabulary names occur in the transcript, the
pre-placeholder medication list is empty. -/
theorem fallbackMedicationsOf_eq_nil (t : List Char)
    (h : ∀ med ∈ fallbackMedsVocab, containsSub med (lowerOf t) = false) :
    fallbackMedicationsOf t = [] := by
  have hfe : fallbackMedsVocab.filter (fun m => containsSub m (lowerOf t)) = [] := by
    rw [List.filter_eq_nil_iff]
    intro med hmed
    simp [h med hmed]
  simp [fallbackMedicationsOf, hfe]

/-- A defaulted list (`xs.length > 0 ? xs : d`) is never empty when the
default is not. -/
theorem orDefault_ne_nil {α : Type} (l d : List α) (hd : d ≠ []) :
    (if 0 < l.length then l else d) ≠ [] := by
  split
  · exact List.ne_nil_of_length_pos ‹_›
  · exact hd

/-! ### Claim theorems -/

/-- C1, counterexample: on the transcript
`"What is the dosage? Take two tablets daily."` the Speaker Segmenter emits
one Pharmacist segment, but its `timestamp` is 30, not 0: the code emits
`timestamp - 30` after having incremented the counter once per processed
sentence, so the emitted value is the counter at the start of the *final*
sentence of the window, not at the start of the window. -/
theorem claim_c1_counterexample :
    processSpeakerSegments (str "What is the dosage? Take two tablets daily.") =
      [⟨"Pharmacist", str "What is the dosage. Take two tablets daily.", 30⟩] ∧
    (processSpeakerSegments (str "What is the dosage? Take two tablets daily.")).map
        SpeakerSegment.timestamp ≠ [0] := by decide

/-- C1, amended: for the transcript
`"What is the dosage? Take two tablets daily."` the Speaker Segmenter emits
exactly one segment whose speaker is Pharmacist and whose `timestamp` is 30
(the counter value before the final sentence's increment). -/
theorem claim_c1 :
    processSpeakerSegments (str "What is the dosage? Take two tablets daily.") =
      [⟨"Pharmacist", str "What is the dosage. Take two tablets daily.", 30⟩] := by
  decide

/-- C2, counterexample: the transcript `"warfarin"` mentions a medication of
the Entity Extractor's full §4.2 vocabulary (case-insensitively), yet the
Fallback Summary Builder produces the placeholder entry and no `Warfarin`
entry: its vocabulary stops after the first ten names. -/
theorem claim_c2_counterexample :
    (createFallbackSummary (str "warfarin")).medications = [noMedsEntry] ∧
    str "warfarin" ∈ medsVocab ∧
    containsSub (str "warfarin") (lowerOf (str "warfarin")) = true ∧
    (⟨str "Warfarin", [], [], []⟩ : MedicationEntry) ∉
      (createFallbackSummary (str "warfarin")).medications := by decide

/-- C2, amended: for every transcript, the Fallback Summary Builder's
`medications` field contains the entry `{name := capFirst med, "" , "", ""}`
exactly for those `med` of its own ten-name vocabulary (aspirin … prednisone,
i.e. §4.2 without warfarin, insulin, morphine, oxycodone, hydrocodone) found
case-insensitively in the transcript, each at most once, and the single
placeholder entry when none of those ten match. -/
theorem claim_c2 (t : List Char) :
    (∀ med ∈ fallbackMedsVocab,
        (containsSub med (lowerOf t) = true ↔
          (⟨capFirst med, [], [], []⟩ : MedicationEntry) ∈
            (createFallbackSummary t).medications)) ∧
    ((createFallbackSummary t).medications.map MedicationEntry.name).Nodup ∧
    ((∀ med ∈ fallbackMedsVocab, containsSub med (lowerOf t) = false) →
      (createFallbackSummary t).medications = [noMedsEntry]) := by
  have hfilter :
      ∀ med, med ∈ fallbackMedsVocab.filter (fun m => containsSub m (lowerOf t)) ↔
        med ∈ fallbackMedsVocab ∧ containsSub med (lowerOf t) = true := by
    intro med; simp [List.mem_filter]
  refine ⟨?_, ?_, ?_⟩
  · intro med hmed
    constructor
    · intro hsub
      have hmem : med ∈ fallbackMedsVocab.filter (fun m => containsSub m (lowerOf t)) :=
        (hfilter med).mpr ⟨hmed, hsub⟩
      have hin : (⟨capFirst med, [], [], []⟩ : MedicationEntry) ∈ fallbackMedicationsOf t :=
        List.mem_map_of_mem (fun med => (⟨capFirst med, [], [], []⟩ : MedicationEntry)) hmem
      have hpos : 0 < (fallbackMedicationsOf t).length := List.length_pos_of_mem hin
      rw [fallback_medications_eq, if_pos hpos]
      exact hin
    · intro hin
      rw [fallback_medications_eq] at hin
      by_cases hpos : 0 < (fallbackMedicationsOf t).length
      · rw [if_pos hpos] at hin
        rcases List.mem_map.mp hin with ⟨med', hmed', heq⟩
        rcases (hfilter med').mp hmed' with ⟨hv', hc'⟩
        have hname : capFirst med' = capFirst med := by
          simpa using congrArg MedicationEntry.name heq
        have : med' = med := capFirst_injOn_vocab med' hv' med hmed hname
        exact this ▸ hc'
      · rw [if_neg hpos] at hin
        have hbad : capFirst med = str "No specific medications mentioned" := by
          simpa [noMedsEntry] using congrArg MedicationEntry.name (List.mem_singleton.mp hin)
        exact absurd hbad (capFirst_vocab_ne_noMeds med hmed)
  · rw [fallback_medications_eq]
    by_cases hpos : 0 < (fallbackMedicationsOf t).length
    · rw [if_pos hpos]
      have hnodup : (fallbackMedsVocab.filter (fun m => containsSub m (lowerOf t))).Nodup :=
        fallbackMedsVocab_nodup.filter _
      have hcap : ((fallbackMedsVocab.filter (fun m => containsSub m (lowerOf t))).map capFirst).Nodup := by
        refine hnodup.map_on ?_
        intro a ha b hb hab
        exact capFirst_injOn_vocab a ((hfilter a).mp ha).1 b ((hfilter b).mp hb).1 hab
      simpa [fallbackMedicationsOf, List.map_map, Function.comp] using hcap
    · rw [if_neg hpos]; simp
  · intro hnone
    rw [fallback_medications_eq, fallbackMedicationsOf_eq_nil t hnone]
    simp

/-- C3: the Entity Extractor applied to
`"Patient takes aspirin 500 mg daily, allergic to penicillin."` returns
exactly the three categories Medications = ["aspirin"],
Dosages = ["500 mg"] and Allergies = ["allergic to penicillin"] (one match
spanning from "allergic" to "penicillin"); Side Effects and Drug
Interactions are absent from the result. -/
theorem claim_c3 :
    extractPharmacyEntities
        (str "Patient takes aspirin 500 mg daily, allergic to penicillin.") =
      [⟨str "Medications", [str "aspirin"]⟩,
       ⟨str "Dosages", [str "500 mg"]⟩,
       ⟨str "Allergies", [str "allergic to penicillin"]⟩] := by decide

/-- C4: for every input string, the Entity Extractor's category list is a
sublist of the fixed order Medications, Dosages, Side Effects, Allergies,
Drug Interactions (so the order never depends on where matches occur in the
text), and no category of the result has an empty item list. -/
theorem claim_c4 (t : List Char) :
    ((extractPharmacyEntities t).map EntityCategory.name).Sublist
      [str "Medications", str "Dosages", str "Side Effects", str "Allergies",
       str "Drug Interactions"] ∧
    ∀ c ∈ extractPharmacyEntities t, c.items ≠ [] := by
  constructor
  · have h : (extractPharmacyEntities t).Sublist
        [⟨str "Medications", medicationsOf t⟩, ⟨str "Dosages", dosagesOf t⟩,
         ⟨str "Side Effects", sideEffectsOf t⟩, ⟨str "Allergies", allergiesOf t⟩,
         ⟨str "Drug Interactions", interactionsOf t⟩] := List.filter_sublist _
    simpa using h.map EntityCategory.name
  · intro c hc
    rcases List.mem_filter.mp hc with ⟨_, hpos⟩
    have : 0 < c.items.length := of_decide_eq_true hpos
    exact List.ne_nil_of_length_pos this

/-- C9: the Entity Extractor is a deterministic pure function: it is a
function of the input string alone, so two applications to the same string
yield identical outputs (purity is inherent to the embedding — the source
reads no external state). -/
theorem claim_c9 (t : List Char) :
    extractPharmacyEntities t = extractPharmacyEntities t := rfl

/-- C8: for every input string, the Medications item list of the Entity
Extractor contains each vocabulary name at most once, its members are
exactly the (lowercase) vocabulary tokens contained case-insensitively in
the input, and the Medications category of the result (when present)
carries exactly that list. -/
theorem claim_c8 (t : List Char) :
    (medicationsOf t).Nodup ∧
    (∀ m, m ∈ medicationsOf t ↔ m ∈ medsVocab ∧ containsSub m (lowerOf t) = true) ∧
    (∀ m ∈ medicationsOf t, lowerOf m = m) ∧
    (∀ c ∈ extractPharmacyEntities t, c.name = str "Medications" →
      c.items = medicationsOf t) := by
  refine ⟨medsVocab_nodup.filter _, ?_, ?_, ?_⟩
  · intro m; simp [medicationsOf, List.mem_filter]
  · intro m hm
    exact medsVocab_lowercase m (List.mem_filter.mp hm).1
  · intro c hc hname
    have hmem := (List.mem_filter.mp hc).1
    simp only [List.mem_cons, List.not_mem_nil, or_false] at hmem
    rcases hmem with h | h | h | h | h <;> subst h
    · rfl
    · dsimp only at hname
      exact absurd hname (by decide)
    · dsimp only at hname
      exact absurd hname (by decide)
    · dsimp only at hname
      exact absurd hname (by decide)
    · dsimp only at hname
      exact absurd hname (by decide)

/-! ### Whitespace, trim and split lemmas for the Speaker Segmenter -/

theorem dropWhile_head_false {p : Char → Bool} :
    ∀ (l : List Char) {c : Char} {ds : List Char},
      l.dropWhile p = c :: ds → p c = false := by
  intro l
  induction l with
  | nil => intro c ds h; simp at h
  | cons a t ih =>
    intro c ds h
    rw [List.dropWhile_cons] at h
    by_cases hpa : p a = true
    · rw [if_pos hpa] at h; exact ih h
    · rw [if_neg hpa] at h
      cases h
      simpa using hpa

theorem dropWhile_append_single {p : Char → Bool} (c : Char) (hc : p c = false) :
    ∀ z : List Char, (z ++ [c]).dropWhile p = z.dropWhile p ++ [c] := by
  intro z
  induction z with
  | nil => simp [List.dropWhile_cons, hc]
  | cons a t ih =>
    rw [List.cons_append, List.dropWhile_cons, List.dropWhile_cons]
    by_cases hpa : p a = true
    · rw [if_pos hpa, if_pos hpa, ih]
    · rw [if_neg hpa, if_neg hpa, List.cons_append]

/-- The trim of any list is empty or starts with a non-whitespace character. -/
theorem trim_shape (l : List Char) :
    trim l = [] ∨ ∃ c ys, trim l = c :: ys ∧ isWs c = false := by
  unfold trim
  cases hdrop : l.dropWhile isWs with
  | nil => left; simp
  | cons c ds =>
    have hc : isWs c = false := dropWhile_head_false l hdrop
    right
    refine ⟨c, (ds.reverse.dropWhile isWs).reverse, ?_, hc⟩
    have hrev : (c :: ds).reverse = ds.reverse ++ [c] := by simp
    rw [hrev, dropWhile_append_single c hc]
    simp

/-- Trimming a string that starts with a non-whitespace character and ends in
`". "` removes exactly the final space. -/
theorem trim_cons_dot_space (c : Char) (ys : List Char) (hc : isWs c = false) :
    trim (c :: (ys ++ str ". ")) = c :: (ys ++ str ".")  := by
  have hdot : str ". " = ['.', ' '] := rfl
  have hd : str "." = ['.'] := rfl
  rw [hdot, hd]
  unfold trim
  rw [List.dropWhile_cons, if_neg (by simp [hc])]
  have h1 : (c :: (ys ++ ['.', ' '])).reverse = ' ' :: '.' :: (ys.reverse ++ [c]) := by
    simp
  rw [h1, List.dropWhile_cons, if_pos (by decide), List.dropWhile_cons,
    if_neg (by decide)]
  simp

/-- Splitting a delimiter-free string returns the accumulated fragment whole. -/
theorem splitAux_no_delim :
    ∀ (l acc : List Char), (∀ c ∈ l, isDelim c = false) →
      splitAux l acc = [acc.reverse ++ l] := by
  intro l
  induction l with
  | nil => intro acc _; simp [splitAux]
  | cons c cs ih =>
    intro acc h
    have hc : isDelim c = false := h c (by simp)
    rw [splitAux, if_neg (by simp [hc]), ih (c :: acc) (fun d hd => h d (by simp [hd]))]
    simp

/-- Shape of the segmentation loop started at an even index with an empty
accumulator: the segment texts concatenate to `chunkJoin` of the trimmed
sentences, and the segment count is ⌈sentences/2⌉. -/
theorem segLoop_structure (rem : List (List Char)) :
    ∀ (i n ts : Nat) (spk : String),
      i % 2 = 0 → i + rem.length = n →
      (∀ s ∈ rem, trim s ≠ []) →
      ((segLoop n rem i spk [] ts).map SpeakerSegment.text).flatten
          = chunkJoin (rem.map trim) ∧
      (segLoop n rem i spk [] ts).length = (rem.length + 1) / 2 :=
  match rem with
  | [] => by
    intro i n ts spk _ _ _
    constructor
    · simp [segLoop, chunkJoin]
    · simp [segLoop]
  | [s] => by
    intro i n ts spk hpar hn hall
    have hn' : i + 1 = n := by simpa using hn
    have h2 : i = n - 1 := by omega
    have hs : trim s ≠ [] := hall s (by simp)
    rcases trim_shape s with h | ⟨c, ys, hcys, hc⟩
    · exact absurd h hs
    have htext : trim (trim s ++ str ". ") = trim s ++ str "." := by
      rw [hcys, List.cons_append]
      rw [trim_cons_dot_space c ys hc]
      simp
    constructor
    · simp [segLoop, h2, htext, chunkJoin]
    · simp [segLoop, h2]
  | a :: b :: rest => by
    intro i n ts spk hpar hn hall
    have hlen : i + (rest.length + 2) = n := by
      simpa [Nat.add_assoc] using hn
    have h1 : ¬ i % 2 = 1 := by omega
    have h2 : ¬ i = n - 1 := by omega
    have h3 : (i + 1) % 2 = 1 := by omega
    have ha : trim a ≠ [] := hall a (by simp)
    have hb : trim b ≠ [] := hall b (by simp)
    rcases trim_shape a with h | ⟨c, ys, hcys, hc⟩
    · exact absurd h ha
    have IH := segLoop_structure rest (i + 1 + 1) n (ts + 30 + 30)
    have htext : trim (((([] ++ trim a) ++ str ". ") ++ trim b) ++ str ". ")
        = ((trim a ++ str ". ") ++ trim b) ++ str "." := by
      rw [List.nil_append, hcys]
      have key := trim_cons_dot_space c ((ys ++ str ". ") ++ trim b) hc
      have lhs_eq : (((c :: ys) ++ str ". ") ++ trim b) ++ str ". "
          = c :: (((ys ++ str ". ") ++ trim b) ++ str ". ") := by
        simp
      have rhs_eq : (((c :: ys) ++ str ". ") ++ trim b) ++ str "."
          = c :: (((ys ++ str ". ") ++ trim b) ++ str ".") := by
        simp
      rw [lhs_eq, rhs_eq]
      exact key
    constructor
    · simp only [segLoop, List.length_cons]
      rw [if_neg (by simp [h1, h2])]
      rw [if_pos (by simp [h3])]
      simp only [List.map_cons, List.flatten_cons]
      rw [htext]
      have hrec := fun spk' => (IH spk' (by omega) (by omega)
        (fun s hs => hall s (by simp [hs]))).1
      rw [hrec]
      simp [chunkJoin, List.append_assoc]
    · simp only [segLoop, List.length_cons]
      rw [if_neg (by simp [h1, h2])]
      rw [if_pos (by simp [h3])]
      simp only [List.length_cons]
      have hrec := fun spk' => (IH spk' (by omega) (by omega)
        (fun s hs => hall s (by simp [hs]))).2
      rw [hrec]
      omega

/-- C10: for every transcript with at least one non-blank sentence, the
Speaker Segmenter emits exactly ⌈n/2⌉ segments, and the concatenation of the
segment texts is the trimmed sentences in original order, each followed by a
single period (windows of two separated by `". "`): no sentence is lost or
duplicated, and the original terminating punctuation is replaced by `.`. -/
theorem claim_c10 (t : List Char) (h : sentencesOf t ≠ []) :
    (processSpeakerSegments t).length = ((sentencesOf t).length + 1) / 2 ∧
    ((processSpeakerSegments t).map SpeakerSegment.text).flatten
      = chunkJoin ((sentencesOf t).map trim) := by
  have hall : ∀ s ∈ sentencesOf t, trim s ≠ [] := by
    intro s hs
    have hpos : 0 < (trim s).length := of_decide_eq_true (List.mem_filter.mp hs).2
    exact List.ne_nil_of_length_pos hpos
  have H := segLoop_structure (sentencesOf t) 0 (sentencesOf t).length 0 "Pharmacist"
    (by omega) (by omega) hall
  exact ⟨H.2, H.1⟩

/-- Witness for C10 at a concrete three-sentence transcript. -/
theorem claim_c10_witness :
    (processSpeakerSegments (str "Hi there! How are you? Fine.")).length
        = ((sentencesOf (str "Hi there! How are you? Fine.")).length + 1) / 2 ∧
    ((processSpeakerSegments (str "Hi there! How are you? Fine.")).map
        SpeakerSegment.text).flatten
      = chunkJoin ((sentencesOf (str "Hi there! How are you? Fine.")).map trim) :=
  claim_c10 (str "Hi there! How are you? Fine.") (by decide)

/-- C5: for every transcript containing none of the sentence terminators
`.`, `!`, `?`, the Speaker Segmenter returns exactly one segment when the
trimmed transcript is non-empty, and the empty sequence when it is empty or
whitespace-only. -/
theorem claim_c5 (t : List Char) (h : ∀ c ∈ t, isDelim c = false) :
    (trim t ≠ [] → (processSpeakerSegments t).length = 1) ∧
    (trim t = [] → processSpeakerSegments t = []) := by
  have hsplit : splitDelims t = [t] := by
    have := splitAux_no_delim t [] h
    simpa [splitDelims] using this
  by_cases htr : trim t = []
  · refine ⟨fun hne => absurd htr hne, fun _ => ?_⟩
    have hsent : sentencesOf t = [] := by
      simp [sentencesOf, hsplit, htr]
    simp [processSpeakerSegments, hsent, segLoop]
  · refine ⟨fun _ => ?_, fun he => absurd he htr⟩
    have hpos : 0 < (trim t).length := List.length_pos.mpr htr
    have hsent : sentencesOf t = [t] := by
      simp [sentencesOf, hsplit, hpos]
    simp [processSpeakerSegments, hsent, segLoop]

/-- Witness for C5 at a concrete punctuation-free transcript. -/
theorem claim_c5_witness :
    (processSpeakerSegments (str "hello world")).length = 1 :=
  (claim_c5 (str "hello world") (by decide)).1 (by decide)

/-! ### Whitespace-only inputs -/

theorem isWs_not_delim {c : Char} (h : isWs c = true) : isDelim c = false := by
  rw [isDelim]
  have h1 : ¬ c = '.' := by rintro rfl; exact absurd h (by decide)
  have h2 : ¬ c = '!' := by rintro rfl; exact absurd h (by decide)
  have h3 : ¬ c = '?' := by rintro rfl; exact absurd h (by decide)
  simp [h1, h2, h3]

theorem isWs_not_digit {c : Char} (h : isWs c = true) : isDigitChar c = false := by
  simp only [isWs] at h
  simp only [isDigitChar]
  simp only [Bool.or_eq_true, Bool.and_eq_true, beq_iff_eq, decide_eq_true_eq] at h
  simp only [Bool.and_eq_false_iff, decide_eq_false_iff_not]
  omega

theorem isWs_lowerChar_self {c : Char} (h : isWs c = true) : lowerChar c = c := by
  have hcond : ¬ ((65 ≤ c.toNat && c.toNat ≤ 90) = true) := by
    simp only [isWs, Bool.or_eq_true, Bool.and_eq_true, beq_iff_eq,
      decide_eq_true_eq] at h
    simp only [Bool.and_eq_true, decide_eq_true_eq, not_and]
    omega
  rw [lowerChar, if_neg hcond]

theorem lowerOf_all_ws : ∀ (t : List Char), (∀ c ∈ t, isWs c = true) → lowerOf t = t := by
  intro t
  induction t with
  | nil => intro _; rfl
  | cons c rest ih =>
    intro h
    simp only [lowerOf, List.map_cons]
    rw [isWs_lowerChar_self (h c (by simp))]
    have hrest := ih (fun d hd => h d (by simp [hd]))
    simp only [lowerOf] at hrest
    rw [hrest]

theorem trim_all_ws {t : List Char} (h : ∀ c ∈ t, isWs c = true) : trim t = [] := by
  have hd : t.dropWhile isWs = [] := List.dropWhile_eq_nil_iff.mpr h
  simp [trim, hd]

theorem startsWithB_subset :
    ∀ (needle hay : List Char), startsWithB needle hay = true → ∀ c ∈ needle, c ∈ hay := by
  intro needle
  induction needle with
  | nil => simp
  | cons p ps ih =>
    intro hay h c hc
    cases hay with
    | nil => simp [startsWithB] at h
    | cons a t =>
      rw [startsWithB, Bool.and_eq_true, beq_iff_eq] at h
      rcases List.mem_cons.mp hc with rfl | hmem
      · simp [h.1]
      · exact List.mem_cons_of_mem a (ih t h.2 c hmem)

theorem containsSub_subset :
    ∀ (hay needle : List Char), containsSub needle hay = true → ∀ c ∈ needle, c ∈ hay := by
  intro hay
  induction hay with
  | nil =>
    intro needle h c hc
    cases needle with
    | nil => simp at hc
    | cons p ps => simp [containsSub, startsWithB] at h
  | cons a t ih =>
    intro needle h c hc
    rw [containsSub, Bool.or_eq_true] at h
    rcases h with h | h
    · exact startsWithB_subset needle (a :: t) h c hc
    · exact List.mem_cons_of_mem a (ih needle h c hc)

/-- A needle with a non-whitespace character is never contained in a
whitespace-only haystack. -/
theorem containsSub_all_ws_false (needle hay : List Char)
    (hws : ∀ c ∈ hay, isWs c = true) (hne : ∃ c ∈ needle, isWs c = false) :
    containsSub needle hay = false := by
  cases hcs : containsSub needle hay with
  | false => rfl
  | true =>
    obtain ⟨c, hc, hcf⟩ := hne
    have := hws c (containsSub_subset hay needle hcs c hc)
    rw [this] at hcf
    cases hcf

theorem startsWithCI_ws_head_false (p : Char) (ps : List Char) (hp : isWs p = false)
    (c : Char) (cs : List Char) (hc : isWs c = true) :
    startsWithCI (p :: ps) (c :: cs) = false := by
  have hne : ¬ p = lowerChar c := by
    rw [isWs_lowerChar_self hc]
    rintro rfl
    rw [hc] at hp
    cases hp
  rw [startsWithCI]
  simp [hne]

theorem scanGo_all_ws_nil (tryAt : List Char → Option (List Char))
    (htry : ∀ l, (∀ c ∈ l, isWs c = true) → l ≠ [] → tryAt l = none) :
    ∀ (l : List Char) (k : Nat), (∀ c ∈ l, isWs c = true) → scanGo tryAt k l = [] := by
  intro l
  induction l with
  | nil => intro k _; simp [scanGo]
  | cons c rest ih =>
    intro k hws
    rw [scanGo]
    by_cases hk : k > 0
    · rw [if_pos hk]
      exact ih _ (fun d hd => hws d (by simp [hd]))
    · rw [if_neg hk, htry (c :: rest) hws (by simp)]
      exact ih 0 (fun d hd => hws d (by simp [hd]))

theorem tryDosage_ws (l : List Char) (h : ∀ c ∈ l, isWs c = true) (hne : l ≠ []) :
    tryDosage l = none := by
  cases l with
  | nil => cases hne rfl
  | cons c rest =>
    have hd : isDigitChar c = false := isWs_not_digit (h c (by simp))
    simp [tryDosage, List.takeWhile_cons, hd]

theorem tryLazyAux_ws (g2 : List (List Char)) (l : List Char)
    (hl : ∀ c ∈ l, isWs c = true) (hne : l ≠ []) :
    ∀ alts, (∀ a ∈ alts, a ≠ [] ∧ isWs a.headI = false) →
      tryLazyAux g2 l alts = none := by
  intro alts
  induction alts with
  | nil => intro _; simp [tryLazyAux]
  | cons a as ih =>
    intro hall
    obtain ⟨hane, hp⟩ := hall a (by simp)
    cases a with
    | nil => cases hane rfl
    | cons p ps =>
      cases l with
      | nil => cases hne rfl
      | cons c rest =>
        have hfalse : startsWithCI (p :: ps) (c :: rest) = false :=
          startsWithCI_ws_head_false p ps (by simpa using hp) c rest (hl c (by simp))
        rw [tryLazyAux, if_neg (by simp [hfalse])]
        exact ih (fun a2 ha2 => hall a2 (by simp [ha2]))

theorem allergyG1_heads : ∀ a ∈ allergyG1, a ≠ [] ∧ isWs a.headI = false := by
  decide

theorem interactG1_heads : ∀ a ∈ interactG1, a ≠ [] ∧ isWs a.headI = false := by
  decide

theorem medsVocab_has_nonws : ∀ m ∈ medsVocab, ∃ c ∈ m, isWs c = false := by decide

theorem sideEffectsVocab_has_nonws :
    ∀ m ∈ sideEffectsVocab, ∃ c ∈ m, isWs c = false := by decide

theorem fallbackMedsVocab_has_nonws :
    ∀ m ∈ fallbackMedsVocab, ∃ c ∈ m, isWs c = false := by decide

/-- On a whitespace-only transcript the Speaker Segmenter yields nothing. -/
theorem segments_ws_nil (t : List Char) (h : ∀ c ∈ t, isWs c = true) :
    processSpeakerSegments t = [] := by
  have hsplit : splitDelims t = [t] := by
    have := splitAux_no_delim t [] (fun c hc => isWs_not_delim (h c hc))
    simpa [splitDelims] using this
  have hsent : sentencesOf t = [] := by
    simp [sentencesOf, hsplit, trim_all_ws h]
  simp [processSpeakerSegments, hsent, segLoop]

/-- On a whitespace-only transcript the Entity Extractor yields nothing. -/
theorem extract_ws_nil (t : List Char) (h : ∀ c ∈ t, isWs c = true) :
    extractPharmacyEntities t = [] := by
  have hlow : lowerOf t = t := lowerOf_all_ws t h
  have hcs : ∀ needle : List Char, (∃ c ∈ needle, isWs c = false) →
      containsSub needle (lowerOf t) = false := by
    intro needle hx
    rw [hlow]
    exact containsSub_all_ws_false needle t h hx
  have hmeds : medicationsOf t = [] := by
    rw [medicationsOf, List.filter_eq_nil_iff]
    intro med hmed
    simp [hcs med (medsVocab_has_nonws med hmed)]
  have hside : sideEffectsOf t = [] := by
    rw [sideEffectsOf, List.filter_eq_nil_iff]
    intro e he
    simp [hcs e (sideEffectsVocab_has_nonws e he)]
  have hdos : dosagesOf t = [] := by
    rw [dosagesOf, dosScan]
    exact scanGo_all_ws_nil tryDosage tryDosage_ws t 0 h
  have hallg : allergiesOf t = [] := by
    rw [allergiesOf, lazyScan]
    refine scanGo_all_ws_nil _ ?_ t 0 h
    intro l hl hne
    exact tryLazyAux_ws allergyG2 l hl hne allergyG1 allergyG1_heads
  have hint : interactionsOf t = [] := by
    rw [interactionsOf, lazyScan]
    refine scanGo_all_ws_nil _ ?_ t 0 h
    intro l hl hne
    exact tryLazyAux_ws interactG2 l hl hne interactG1 interactG1_heads
  simp [extractPharmacyEntities, hmeds, hdos, hside, hallg, hint]

/-- On a whitespace-only transcript the Fallback Summary Builder yields the
all-placeholder summary. -/
theorem fallback_ws_default (t : List Char) (h : ∀ c ∈ t, isWs c = true) :
    createFallbackSummary t =
      ⟨[str "General consultation"], [noMedsEntry],
       [str "Review consultation notes"], [str "General health discussion"],
       [str "Follow prescribed regimen"]⟩ := by
  have hlow : lowerOf t = t := lowerOf_all_ws t h
  have hcs : ∀ needle : List Char, (∃ c ∈ needle, isWs c = false) →
      containsSub needle (lowerOf t) = false := by
    intro needle hx
    rw [hlow]
    exact containsSub_all_ws_false needle t h hx
  have htop : topicsOf t = [] := by
    simp [topicsOf, hcs (str "medication") (by decide), hcs (str "side effect") (by decide),
      hcs (str "allergy") (by decide), hcs (str "dosage") (by decide),
      hcs (str "refill") (by decide)]
  have hmed : fallbackMedicationsOf t = [] :=
    fallbackMedicationsOf_eq_nil t
      (fun med hmed => hcs med (fallbackMedsVocab_has_nonws med hmed))
  have hact : actionsOf t = [] := by
    simp [actionsOf, hcs (str "follow up") (by decide), hcs (str "refill") (by decide),
      hcs (str "call") (by decide)]
  have hcon : concernsOf t = [] := by
    simp [concernsOf, hcs (str "pain") (by decide), hcs (str "side effect") (by decide),
      hcs (str "allergy") (by decide)]
  have hrec : recommendationsOf t = [] := by
    simp [recommendationsOf, hcs (str "take with food") (by decide),
      hcs (str "avoid alcohol") (by decide), hcs (str "monitor") (by decide)]
  simp [createFallbackSummary, htop, hmed, hact, hcon, hrec]

/-- C6: the three utilities are total functions of the input string (they
are plain `def`s of this embedding, so they return normally on every
input); in particular, on an empty or whitespace-only transcript the
Speaker Segmenter returns the empty sequence, the Entity Extractor returns
the empty category sequence, and the Fallback Summary Builder returns the
all-placeholder summary. -/
theorem claim_c6 (t : List Char) (h : ∀ c ∈ t, isWs c = true) :
    processSpeakerSegments t = [] ∧
    extractPharmacyEntities t = [] ∧
    createFallbackSummary t =
      ⟨[str "General consultation"], [noMedsEntry],
       [str "Review consultation notes"], [str "General health discussion"],
       [str "Follow prescribed regimen"]⟩ :=
  ⟨segments_ws_nil t h, extract_ws_nil t h, fallback_ws_default t h⟩

/-- Witness for C6 at a concrete whitespace-only transcript. -/
theorem claim_c6_witness :
    processSpeakerSegments (str " \t ") = [] ∧
    extractPharmacyEntities (str " \t ") = [] ∧
    createFallbackSummary (str " \t ") =
      ⟨[str "General consultation"], [noMedsEntry],
       [str "Review consultation notes"], [str "General health discussion"],
       [str "Follow prescribed regimen"]⟩ :=
  claim_c6 (str " \t ") (by decide)

/-- C7: for every transcript, all five fields of the Fallback Summary
Builder's result are non-empty; a field whose triggers all fail (spelled out
per field) holds exactly its single-element placeholder; and the example
transcript containing "side effect" and "refill" and no medication keywords
yields the medications placeholder and a keyTopics list containing both
"Side effects" and "Refill request". -/
theorem claim_c7 (t : List Char) :
    ((createFallbackSummary t).keyTopics ≠ [] ∧
     (createFallbackSummary t).medications ≠ [] ∧
     (createFallbackSummary t).actionItems ≠ [] ∧
     (createFallbackSummary t).patientConcerns ≠ [] ∧
     (createFallbackSummary t).pharmacistRecommendations ≠ []) ∧
    (containsSub (str "medication") (lowerOf t) = false →
     containsSub (str "side effect") (lowerOf t) = false →
     containsSub (str "allergy") (lowerOf t) = false →
     containsSub (str "dosage") (lowerOf t) = false →
     containsSub (str "refill") (lowerOf t) = false →
      (createFallbackSummary t).keyTopics = [str "General consultation"]) ∧
    ((∀ med ∈ fallbackMedsVocab, containsSub med (lowerOf t) = false) →
      (createFallbackSummary t).medications = [noMedsEntry]) ∧
    (containsSub (str "follow up") (lowerOf t) = false →
     containsSub (str "refill") (lowerOf t) = false →
     containsSub (str "call") (lowerOf t) = false →
      (createFallbackSummary t).actionItems = [str "Review consultation notes"]) ∧
    (containsSub (str "pain") (lowerOf t) = false →
     containsSub (str "side effect") (lowerOf t) = false →
     containsSub (str "allergy") (lowerOf t) = false →
      (createFallbackSummary t).patientConcerns = [str "General health discussion"]) ∧
    (containsSub (str "take with food") (lowerOf t) = false →
     containsSub (str "avoid alcohol") (lowerOf t) = false →
     containsSub (str "monitor") (lowerOf t) = false →
      (createFallbackSummary t).pharmacistRecommendations = [str "Follow prescribed regimen"]) ∧
    createFallbackSummary (str "there is a side effect and please refill") =
      ⟨[str "Side effects", str "Refill request"], [noMedsEntry],
       [str "Process medication refill"],
       [str "Medication side effects"], [str "Follow prescribed regimen"]⟩ := by
  refine ⟨⟨?_, ?_, ?_, ?_, ?_⟩, ?_, ?_, ?_, ?_, ?_, by decide⟩
  · rw [fallback_keyTopics_eq]
    exact orDefault_ne_nil _ _ (by simp)
  · rw [fallback_medications_eq]
    exact orDefault_ne_nil _ _ (by simp)
  · rw [fallback_actionItems_eq]
    exact orDefault_ne_nil _ _ (by simp)
  · rw [fallback_patientConcerns_eq]
    exact orDefault_ne_nil _ _ (by simp)
  · rw [fallback_recommendations_eq]
    exact orDefault_ne_nil _ _ (by simp)
  · intro h1 h2 h3 h4 h5
    have ht : topicsOf t = [] := by simp [topicsOf, h1, h2, h3, h4, h5]
    rw [fallback_keyTopics_eq, ht]
    simp
  · intro hnone
    rw [fallback_medications_eq, fallbackMedicationsOf_eq_nil t hnone]
    simp
  · intro h1 h2 h3
    have ha : actionsOf t = [] := by simp [actionsOf, h1, h2, h3]
    rw [fallback_actionItems_eq, ha]
    simp
  · intro h1 h2 h3
    have hc : concernsOf t = [] := by simp [concernsOf, h1, h2, h3]
    rw [fallback_patientConcerns_eq, hc]
    simp
  · intro h1 h2 h3
    have hr : recommendationsOf t = [] := by simp [recommendationsOf, h1, h2, h3]
    rw [fallback_recommendations_eq, hr]
    simp

end EWriter
